import Mathlib

/-! # filecacher: a shallow embedding of `file.go` and `filecacher.go`

The Go package keeps, per key, a `*File` holding the bytes of one file on disk
and refreshes that buffer when the poller reports a write.  The embedding is a
state-passing one:

* a `File` value is the content of one Go `File` struct;
* `*File` pointers are natural numbers into a heap `Nat → File`;
* every method that takes the receiver's lock is one atomic function on the
  state (the lock itself is not represented);
* the filesystem, the poller constructor and `filepath.Join` are the fields of
  a `World` that is handed to every operation that reaches them.
-/

namespace Filecacher

/-! ## Errors, bytes, the outside world -/

/-- A byte string, as held by `bytes.Buffer`. -/
abbrev Bytes := List UInt8

/-- The `error` values that flow through the package: the two constants of
`filecacher.go`, `errors.ErrIsClosed`, and any error produced outside the
package (by `os.Open`, `io.Copy` or `poller.New`), kept by its message. -/
inductive Error where
  | ErrFileNotFound
  | ErrFileExists
  | ErrIsClosed
  | foreign (msg : String)
  deriving DecidableEq, Repr

/-- What `os.Open(name)` followed by `io.Copy` can observe for one path:
the open fails with a not-exist error, the open fails with another error, or
the open succeeds and the reader delivers `data` and then either end of file
(`readErr = none`) or a read error (`readErr = some msg`). -/
inductive OpenResult where
  | notExist
  | failed (msg : String)
  | opened (data : Bytes) (readErr : Option String)
  deriving DecidableEq, Repr

/-- The collaborators outside the package, as seen during one operation. -/
structure World where
  /-- The outcome of `os.Open` and of reading the opened file. -/
  osOpen : String → OpenResult
  /-- The error of `poller.New(filename, handler)`, if any. -/
  pollerNew : String → Option String
  /-- The function `filepath.Join` on two arguments. -/
  filepathJoin : String → String → String

/-- Modelled from the spec: `poller.Event` of the package
`github.com/gdbu/poller` (section 6, `event ∈ {Write, Remove}`); every other
value of the type falls through the `switch` of `onEvent`. -/
inductive Event where
  | EventWrite
  | EventRemove
  | EventOther
  deriving DecidableEq, Repr

/-- Modelled from the spec: `*poller.Poller` of the package
`github.com/gdbu/poller`, reduced to the number of times its `Close` method
has been called (section 6, `subscriptionHandle.release()`). -/
structure Poller where
  closeCalls : Nat
  deriving DecidableEq, Repr

/-- Modelled from the spec: `Poller.Close`, one release of the subscription. -/
def Poller.Close (p : Poller) : Poller :=
  { p with closeCalls := p.closeCalls + 1 }

/-- Modelled from the spec: `atoms.Bool.Get` of the package
`github.com/gdbu/atoms`, the current value of the flag. -/
def atomsGet (b : Bool) : Bool := b

/-- Modelled from the spec: `atoms.Bool.Set` of the package
`github.com/gdbu/atoms` (section 9: compare-and-swap semantics).  Returns the
new value of the flag and whether this call changed it. -/
def atomsSet (b : Bool) (state : Bool) : Bool × Bool :=
  (state, b != state)

/-! ## `file.go` -/

/-- The Go struct `File` (the mutex is not represented). -/
structure File where
  p : Poller
  b : Bytes
  filename : String
  closed : Bool
  deriving DecidableEq, Repr

/-- The method `File.refreshBuffer`: open the file; on failure return the error
(not-exist becomes `ErrFileNotFound`) with the buffer untouched; otherwise
`f.b.Reset()` and then `io.Copy(f.b, tgt)`, which appends everything the reader
delivered and returns the read error, if any. -/
def File.refreshBuffer (w : World) (f : File) : File × Option Error :=
  match w.osOpen f.filename with
  | .notExist => (f, some .ErrFileNotFound)
  | .failed msg => (f, some (.foreign msg))
  | .opened data readErr =>
    let f1 : File := { f with b := [] }
    let f2 : File := { f1 with b := f1.b ++ data }
    match readErr with
    | some msg => (f2, some (.foreign msg))
    | none => (f2, none)

/-- The function `NewFile`: a fresh `File` with an empty buffer, filled by one
`refreshBuffer`, then subscribed with `poller.New`. -/
def NewFile (w : World) (filename : String) : Except Error File :=
  let f : File := { p := { closeCalls := 0 }, b := [], filename := filename, closed := false }
  match f.refreshBuffer w with
  | (_, some err) => .error err
  | (f1, none) =>
    match w.pollerNew filename with
    | some msg => .error (.foreign msg)
    | none => .ok f1

/-- The method `File.Close`: `closed.Set(true)`; if that did not change the
flag return `ErrIsClosed`, otherwise call `f.p.Close()`. -/
def File.Close (f : File) : File × Option Error :=
  let r := atomsSet f.closed true
  let f1 : File := { f with closed := r.1 }
  if !r.2 then (f1, some .ErrIsClosed)
  else ({ f1 with p := f1.p.Close }, none)

/-- The method `File.onEvent`: a write event refreshes the buffer (an error is
logged and dropped), a remove event closes the file (the result is dropped),
any other event does nothing. -/
def File.onEvent (w : World) (f : File) (e : Event) : File :=
  match e with
  | .EventWrite => (f.refreshBuffer w).1
  | .EventRemove => f.Close.1
  | .EventOther => f

/-- The method `File.Read`.  The consumer `fn` receives the bytes of the buffer
and may act on a state `σ` of its own; `Read` returns `ErrIsClosed` without
calling it when the file is closed. -/
def File.Read {σ : Type} (f : File) (fn : Bytes → σ → Option Error × σ) (a : σ) :
    Option Error × σ :=
  if atomsGet f.closed then (some .ErrIsClosed, a)
  else fn f.b a

/-! ## `filecacher.go` -/

/-- A Go `map[string]*File`: an association list read from the front.  The
order of the list has no meaning; pointers are natural numbers. -/
abbrev FileMap := List (String × Nat)

/-- The two-result map read `file, ok = m[key]`. -/
def mapGet : FileMap → String → Option Nat
  | [], _ => none
  | (k, v) :: rest, key => if k = key then some v else mapGet rest key

/-- The builtin `delete(m, key)`. -/
def mapDelete (m : FileMap) (key : String) : FileMap :=
  m.filter (fun e => decide (e.1 ≠ key))

/-- The map write `m[key] = file`. -/
def mapSet (m : FileMap) (key : String) (file : Nat) : FileMap :=
  (key, file) :: mapDelete m key

/-- The Go struct `FileCacher` (the mutex is not represented). -/
structure FileCacher where
  m : FileMap
  root : String
  closed : Bool
  deriving DecidableEq, Repr

/-- The function `New`: an open registry with an empty map. -/
def New (root : String) : FileCacher :=
  { m := [], root := root, closed := false }

/-- The program state: the `File` objects by address, the next address the
allocator hands out, and the registry. -/
structure State where
  heap : Nat → File
  next : Nat
  fc : FileCacher

/-- The state right after `New(root)`: no `File` has been allocated; an unused
address holds the zero value of `File`. -/
def State.init (root : String) : State :=
  { heap := fun _ => { p := { closeCalls := 0 }, b := [], filename := "", closed := false },
    next := 0,
    fc := New root }

/-- A call `file.Close()` through a pointer. -/
def State.closeFile (s : State) (file : Nat) : State × Option Error :=
  let r := (s.heap file).Close
  ({ s with heap := Function.update s.heap file r.1 }, r.2)

/-- The delivery of one poller event to the handler of the `File` at `file`. -/
def State.onEvent (w : World) (s : State) (file : Nat) (e : Event) : State :=
  { s with heap := Function.update s.heap file ((s.heap file).onEvent w e) }

/-- The value a method call through a nil `*File` is given here.  No definition
below reaches it: a nil pointer is only ever returned together with an error
(`get_file_of_no_error`, `GetOrCreate_file_of_no_error`). -/
def nilDereference : Error := .foreign "nil pointer dereference"

/-- The method `FileCacher.create`: `NewFile(filename)`; on success the new
`File` is allocated and stored under `key`. -/
def FileCacher.create (w : World) (s : State) (key filename : String) :
    (Option Nat × Option Error) × State :=
  match NewFile w filename with
  | .error err => ((none, some err), s)
  | .ok file =>
    ((some s.next, none),
      { heap := Function.update s.heap s.next file,
        next := s.next + 1,
        fc := { s.fc with m := mapSet s.fc.m key s.next } })

/-- The method `FileCacher.get`: the entry of `key`, with `ErrFileNotFound`
when there is none or when its `File` is closed (the pointer read from the map
is returned in either case). -/
def FileCacher.get (s : State) (key : String) : Option Nat × Option Error :=
  match mapGet s.fc.m key with
  | none => (none, some .ErrFileNotFound)
  | some file =>
    if atomsGet (s.heap file).closed then (some file, some .ErrFileNotFound)
    else (some file, none)

/-- The method `FileCacher.New`. -/
def FileCacher.New (w : World) (s : State) (key : String) :
    (Option Nat × Option Error) × State :=
  if s.fc.closed then ((none, some .ErrIsClosed), s)
  else
    match (FileCacher.get s key).2 with
    | none => ((none, some .ErrFileExists), s)
    | some _ => FileCacher.create w s key (w.filepathJoin s.fc.root key)

/-- The method `FileCacher.Get`. -/
def FileCacher.Get (s : State) (key : String) : (Option Nat × Option Error) × State :=
  if s.fc.closed then ((none, some .ErrIsClosed), s)
  else (FileCacher.get s key, s)

/-- The method `FileCacher.GetOrCreate`: `Get`, and on any error `New`. -/
def FileCacher.GetOrCreate (w : World) (s : State) (key : String) :
    (Option Nat × Option Error) × State :=
  let r := FileCacher.Get s key
  match r.1.2 with
  | none => r
  | some _ => FileCacher.New w r.2 key

/-- The method `FileCacher.Read`: `GetOrCreate`, then `File.Read` on the
result. -/
def FileCacher.Read {σ : Type} (w : World) (s : State) (key : String)
    (fn : Bytes → σ → Option Error × σ) (a : σ) : (Option Error × σ) × State :=
  let r := FileCacher.GetOrCreate w s key
  match r.1.2 with
  | some err => ((some err, a), r.2)
  | none =>
    match r.1.1 with
    | some file => ((r.2.heap file).Read fn a, r.2)
    | none => ((some nilDereference, a), r.2)

/-- The method `FileCacher.Unmount`: on a live entry, `delete(f.m, key)` and
then `file.Close()`, whose result is dropped. -/
def FileCacher.Unmount (s : State) (key : String) : Option Error × State :=
  if s.fc.closed then (some .ErrIsClosed, s)
  else
    match FileCacher.get s key with
    | (_, some err) => (some err, s)
    | (some file, none) =>
      let s1 : State := { s with fc := { s.fc with m := mapDelete s.fc.m key } }
      (none, (s1.closeFile file).1)
    | (none, none) => (some nilDereference, s)

/-- The method `FileCacher.Close`: set `closed`, then call `Close` on every
`File` of the map, dropping the results. -/
def FileCacher.Close (s : State) : Option Error × State :=
  if s.fc.closed then (some .ErrIsClosed, s)
  else
    let s1 : State := { s with fc := { s.fc with closed := true } }
    (none, s.fc.m.foldl (fun st e => (st.closeFile e.2).1) s1)

/-! ## Sequences of calls -/

/-- One call on the program: the six exported methods of `FileCacher`, the two
exported methods of `File` through a pointer, and the delivery of a poller
event to a `File`.  Consumers act on a state `σ` of their own. -/
inductive Op (σ : Type) where
  | New (key : String)
  | Get (key : String)
  | GetOrCreate (key : String)
  | Read (key : String) (fn : Bytes → σ → Option Error × σ)
  | Unmount (key : String)
  | Close
  | FileRead (file : Nat) (fn : Bytes → σ → Option Error × σ)
  | FileClose (file : Nat)
  | Event (file : Nat) (e : Event)

/-- The effect of one call on the program state and on the consumers' state. -/
def step {σ : Type} (w : World) (x : State × σ) : Op σ → State × σ
  | .New key => ((FileCacher.New w x.1 key).2, x.2)
  | .Get key => ((FileCacher.Get x.1 key).2, x.2)
  | .GetOrCreate key => ((FileCacher.GetOrCreate w x.1 key).2, x.2)
  | .Read key fn => ((FileCacher.Read w x.1 key fn x.2).2, (FileCacher.Read w x.1 key fn x.2).1.2)
  | .Unmount key => ((FileCacher.Unmount x.1 key).2, x.2)
  | .Close => ((FileCacher.Close x.1).2, x.2)
  | .FileRead file fn => (x.1, ((x.1.heap file).Read fn x.2).2)
  | .FileClose file => ((x.1.closeFile file).1, x.2)
  | .Event file e => (x.1.onEvent w file e, x.2)

/-- A sequence of calls, each made in the world of its moment. -/
def run {σ : Type} : List (World × Op σ) → State × σ → State × σ
  | [], x => x
  | (w, op) :: rest, x => run rest (step w x op)

/-- The four call sites of `File.Close`, seen from one `File`: an explicit
`File.Close`, `FileCacher.Unmount` of a key, `FileCacher.Close`, and a remove
event delivered to `onEvent`. -/
inductive Trigger where
  | fileClose
  | unmount (key : String)
  | registryClose
  | removeEvent
  deriving DecidableEq, Repr

/-- The effect of one close trigger, the first and the last aimed at the
`File` at `file`. -/
def fire (w : World) (file : Nat) (s : State) : Trigger → State
  | .fileClose => (s.closeFile file).1
  | .unmount key => (FileCacher.Unmount s key).2
  | .registryClose => (FileCacher.Close s).2
  | .removeEvent => s.onEvent w file .EventRemove

/-- A sequence of close triggers, fired in order. -/
def fireAll (w : World) (file : Nat) : List Trigger → State → State
  | [], s => s
  | t :: ts, s => fireAll w file ts (fire w file s t)

/-- A trigger is applied to the `File` at `file` in state `s`: the two direct
ones always are, `Unmount(key)` when `key` is mapped to it, and the registry's
`Close` when some entry of the map holds it. -/
def Trigger.appliesTo (file : Nat) (s : State) : Trigger → Prop
  | .fileClose => True
  | .unmount key => mapGet s.fc.m key = some file
  | .registryClose => ∃ e ∈ s.fc.m, e.2 = file
  | .removeEvent => True

/-- Once the registry is closed every `File` of its map is closed. -/
def State.ClosedInv (s : State) : Prop :=
  s.fc.closed = true → ∀ e ∈ s.fc.m, (s.heap e.2).closed = true

/-- Every pointer of the map has been allocated, and no two entries of the map
hold the same pointer. -/
def State.WF (s : State) : Prop :=
  (∀ e ∈ s.fc.m, e.2 < s.next) ∧ (s.fc.m.map Prod.snd).Nodup

/-- The key has a live entry: the map holds a pointer for it and the `File`
there is not closed. -/
def State.live (s : State) (key : String) : Prop :=
  ∃ file, mapGet s.fc.m key = some file ∧ (s.heap file).closed = false

instance (file : Nat) (s : State) (t : Trigger) : Decidable (t.appliesTo file s) := by
  cases t <;> unfold Trigger.appliesTo <;> infer_instance

instance (s : State) : Decidable s.ClosedInv := by
  unfold State.ClosedInv
  infer_instance

instance (s : State) : Decidable s.WF := by
  unfold State.WF
  infer_instance

instance (s : State) (key : String) : Decidable (s.live key) :=
  match h : mapGet s.fc.m key with
  | none => isFalse (fun ⟨_, hm, _⟩ => Option.noConfusion (h ▸ hm))
  | some file =>
    if hc : (s.heap file).closed = false then isTrue ⟨file, h, hc⟩
    else isFalse (fun ⟨_, hm, hf⟩ => hc (Option.some.inj (h ▸ hm) ▸ hf))

/-! ## Two interleaved calls of `GetOrCreate` -/

/-- Where one call of `GetOrCreate` stands: before its `Get`, between a failed
`Get` and its `New`, or returned with its results. -/
inductive GocThread where
  | start
  | retry
  | done (r : Option Nat × Option Error)
  deriving DecidableEq, Repr

/-- One atomic step of a call of `GetOrCreate(key)`: the locked `Get`, or the
locked `New` that follows a failed `Get`. -/
def gocStep (w : World) (key : String) (s : State) : GocThread → State × GocThread
  | .start =>
    match (FileCacher.Get s key).1.2 with
    | none => ((FileCacher.Get s key).2, .done (FileCacher.Get s key).1)
    | some _ => ((FileCacher.Get s key).2, .retry)
  | .retry => ((FileCacher.New w s key).2, .done (FileCacher.New w s key).1)
  | .done r => (s, .done r)

/-- Two calls of `GetOrCreate(key)` under a schedule: `false` lets the first
call take its next step, `true` the second. -/
def gocRun (w : World) (key : String) :
    List Bool → State × GocThread × GocThread → State × GocThread × GocThread
  | [], x => x
  | false :: rest, (s, a, b) =>
    gocRun w key rest ((gocStep w key s a).1, (gocStep w key s a).2, b)
  | true :: rest, (s, a, b) =>
    gocRun w key rest ((gocStep w key s b).1, a, (gocStep w key s b).2)

/-! ## Concrete worlds and states -/

/-- The bytes of `hello`. -/
def helloBytes : Bytes := [104, 101, 108, 108, 111]

/-- The bytes of `world!`. -/
def worldBytes : Bytes := [119, 111, 114, 108, 100, 33]

/-- A world in which every path opens and reads to the end as `data`, every
subscription succeeds, and paths are joined with a slash. -/
def worldWith (data : Bytes) : World :=
  { osOpen := fun _ => .opened data none,
    pollerNew := fun _ => none,
    filepathJoin := fun root key => root ++ "/" ++ key }

/-- A world in which every path opens, delivers `data` and then fails with a
read error. -/
def worldTorn (data : Bytes) : World :=
  { osOpen := fun _ => .opened data (some "read error"),
    pollerNew := fun _ => none,
    filepathJoin := fun root key => root ++ "/" ++ key }

/-- An open `File` over `/r/a` holding `hello`. -/
def fileHello : File :=
  { p := { closeCalls := 0 }, b := helloBytes, filename := "/r/a", closed := false }

/-- The registry rooted at `/r` after a successful `New("a")` over `hello`. -/
def stateA : State := (FileCacher.New (worldWith helloBytes) (State.init "/r") "a").2

end Filecacher

/-! ## Lemmas on the embedding -/

namespace Filecacher

theorem File.Close_open (f : File) (h : f.closed = false) :
    f.Close = ({ f with closed := true, p := f.p.Close }, none) := by
  simp [File.Close, atomsSet, h]

theorem File.Close_closed (f : File) (h : f.closed = true) :
    f.Close = (f, some .ErrIsClosed) := by
  cases f
  simp_all [File.Close, atomsSet]

theorem File.Close_fst_closed (f : File) : f.Close.1.closed = true := by
  cases h : f.closed
  · simp [File.Close_open f h]
  · simp [File.Close_closed f h, h]

theorem File.Read_closed {σ : Type} (f : File) (h : f.closed = true)
    (fn : Bytes → σ → Option Error × σ) (a : σ) :
    f.Read fn a = (some .ErrIsClosed, a) := by
  simp [File.Read, atomsGet, h]

theorem File.Read_open {σ : Type} (f : File) (h : f.closed = false)
    (fn : Bytes → σ → Option Error × σ) (a : σ) :
    f.Read fn a = fn f.b a := by
  simp [File.Read, atomsGet, h]

theorem mapGet_mem {m : FileMap} {key : String} {file : Nat}
    (h : mapGet m key = some file) : (key, file) ∈ m := by
  induction m with
  | nil => simp [mapGet] at h
  | cons e rest ih =>
    obtain ⟨k, v⟩ := e
    by_cases hk : k = key
    · simp [mapGet, hk] at h
      simp [hk, h]
    · simp [mapGet, hk] at h
      exact List.mem_cons_of_mem _ (ih h)

theorem mapGet_mapDelete_self (m : FileMap) (key : String) :
    mapGet (mapDelete m key) key = none := by
  induction m with
  | nil => rfl
  | cons e rest ih =>
    obtain ⟨k, v⟩ := e
    by_cases hk : k = key
    · simpa [mapDelete, List.filter_cons, hk] using ih
    · simpa [mapDelete, List.filter_cons, hk, mapGet] using ih

theorem mapGet_mapDelete_ne (m : FileMap) {key k : String} (h : k ≠ key) :
    mapGet (mapDelete m key) k = mapGet m k := by
  induction m with
  | nil => rfl
  | cons e rest ih =>
    obtain ⟨k1, v⟩ := e
    by_cases hk : k1 = key
    · subst hk
      have hk1 : ¬ k1 = k := fun h1 => h h1.symm
      simpa [mapDelete, List.filter_cons, mapGet, hk1] using ih
    · by_cases hk1 : k1 = k
      · subst hk1
        simp [mapDelete, List.filter_cons, hk, mapGet]
      · simpa [mapDelete, List.filter_cons, hk, mapGet, hk1] using ih

theorem mapGet_mapSet_self (m : FileMap) (key : String) (file : Nat) :
    mapGet (mapSet m key file) key = some file := by
  simp [mapSet, mapGet]

theorem mapGet_mapSet_ne (m : FileMap) {key k : String} (file : Nat) (h : k ≠ key) :
    mapGet (mapSet m key file) k = mapGet m k := by
  have h1 : ¬ key = k := fun e => h e.symm
  simp [mapSet, mapGet, h1, mapGet_mapDelete_ne m h]

theorem mapDelete_sublist (m : FileMap) (key : String) :
    List.Sublist (mapDelete m key) m := by
  unfold mapDelete
  exact List.filter_sublist m

theorem get_of_live {s : State} {key : String} {file : Nat}
    (hm : mapGet s.fc.m key = some file) (hc : (s.heap file).closed = false) :
    FileCacher.get s key = (some file, none) := by
  simp [FileCacher.get, hm, atomsGet, hc]

theorem get_of_not_live {s : State} {key : String} (h : ¬ s.live key) :
    (FileCacher.get s key).2 = some .ErrFileNotFound := by
  unfold FileCacher.get
  cases hm : mapGet s.fc.m key with
  | none => rfl
  | some file =>
    cases hc : (s.heap file).closed
    · exact absurd ⟨file, hm, hc⟩ h
    · simp [atomsGet, hc]

theorem get_no_error_iff (s : State) (key : String) (file : Nat) :
    FileCacher.get s key = (some file, none) ↔
      mapGet s.fc.m key = some file ∧ (s.heap file).closed = false := by
  constructor
  · intro h
    unfold FileCacher.get at h
    cases hm : mapGet s.fc.m key with
    | none => simp [hm] at h
    | some f0 =>
      cases hc : (s.heap f0).closed
      · simp [hm, atomsGet, hc] at h
        subst h
        exact ⟨rfl, hc⟩
      · simp [hm, atomsGet, hc] at h
  · rintro ⟨hm, hc⟩
    exact get_of_live hm hc

theorem get_file_of_no_error (s : State) (key : String)
    (h : (FileCacher.get s key).2 = none) :
    ∃ file, FileCacher.get s key = (some file, none) := by
  unfold FileCacher.get at h ⊢
  cases hm : mapGet s.fc.m key with
  | none => simp [hm] at h
  | some f0 =>
    cases hc : (s.heap f0).closed
    · exact ⟨f0, by simp [atomsGet, hc]⟩
    · simp [hm, atomsGet, hc] at h

theorem NewFile_error_foreign {w : World} {filename : String} {err : Error}
    (h : NewFile w filename = .error err) :
    err = .ErrFileNotFound ∨ ∃ msg, err = .foreign msg := by
  unfold NewFile File.refreshBuffer at h
  cases ho : w.osOpen filename with
  | notExist =>
    simp [ho] at h
    exact Or.inl h.symm
  | failed msg =>
    simp [ho] at h
    exact Or.inr ⟨msg, h.symm⟩
  | opened data readErr =>
    cases readErr with
    | some msg =>
      simp [ho] at h
      exact Or.inr ⟨msg, h.symm⟩
    | none =>
      cases hp : w.pollerNew filename with
      | none => simp [ho, hp] at h
      | some msg =>
        simp [ho, hp] at h
        exact Or.inr ⟨msg, h.symm⟩

theorem NewFile_ok_open {w : World} {filename : String} {file : File}
    (h : NewFile w filename = .ok file) :
    file.closed = false ∧ file.p.closeCalls = 0 ∧ file.filename = filename ∧
      ∃ data, w.osOpen filename = .opened data none ∧ file.b = data := by
  unfold NewFile File.refreshBuffer at h
  cases ho : w.osOpen filename with
  | notExist => simp [ho] at h
  | failed msg => simp [ho] at h
  | opened data readErr =>
    cases readErr with
    | some msg => simp [ho] at h
    | none =>
      cases hp : w.pollerNew filename with
      | some msg => simp [ho, hp] at h
      | none =>
        simp [ho, hp] at h
        subst h
        simp

/-! ## C1: `Get` -/

/-- C1: in an open registry `Get(key)` returns the mapped `File` with no error
exactly when the map holds an entry for `key` whose `File` is not closed, it
returns `ErrFileNotFound` in every other case, and it leaves the whole state,
the map and the closed flag included, as it was. -/
theorem Get_open_spec (s : State) (key : String) (hopen : s.fc.closed = false) :
    (∀ file, (mapGet s.fc.m key = some file ∧ (s.heap file).closed = false) ↔
        (FileCacher.Get s key).1 = (some file, none)) ∧
    (¬ s.live key → (FileCacher.Get s key).1.2 = some .ErrFileNotFound) ∧
    (FileCacher.Get s key).2.fc.m = s.fc.m ∧
    (FileCacher.Get s key).2.fc.closed = s.fc.closed ∧
    (FileCacher.Get s key).2 = s := by
  have hG : FileCacher.Get s key = (FileCacher.get s key, s) := by
    simp [FileCacher.Get, hopen]
  refine ⟨?_, ?_, ?_, ?_, ?_⟩
  · intro file
    rw [hG]
    exact (get_no_error_iff s key file).symm
  · intro h
    rw [hG]
    exact get_of_not_live h
  · rw [hG]
  · rw [hG]
  · rw [hG]

/-- C1, at the registry holding a live `a`: `Get("a")` returns its `File`,
`Get("b")` returns `ErrFileNotFound`. -/
theorem Get_open_spec_witness :
    stateA.fc.closed = false ∧
    (FileCacher.Get stateA "a").1 = (some 0, none) ∧
    (FileCacher.Get stateA "b").1.2 = some .ErrFileNotFound ∧
    (FileCacher.Get stateA "a").2 = stateA :=
  ⟨by decide,
   ((Get_open_spec stateA "a" (by decide)).1 0).mp ⟨by decide, by decide⟩,
   (Get_open_spec stateA "b" (by decide)).2.1 (by
      rintro ⟨file, hm, _⟩
      have h0 : mapGet stateA.fc.m "b" = none := by decide
      rw [h0] at hm
      exact Option.noConfusion hm),
   (Get_open_spec stateA "a" (by decide)).2.2.2.2⟩

/-! ## C2: `New` -/

theorem New_of_live {w : World} {s : State} {key : String}
    (hopen : s.fc.closed = false) (h : s.live key) :
    FileCacher.New w s key = ((none, some .ErrFileExists), s) := by
  obtain ⟨file, hm, hc⟩ := h
  simp [FileCacher.New, hopen, get_of_live hm hc]

theorem New_of_not_live {w : World} {s : State} {key : String}
    (hopen : s.fc.closed = false) (h : ¬ s.live key) :
    FileCacher.New w s key =
      FileCacher.create w s key (w.filepathJoin s.fc.root key) := by
  simp [FileCacher.New, hopen, get_of_not_live h]

/-- C2: in an open registry `New(key)` fails with `ErrFileExists` exactly when
`key` has a live entry, and then leaves the state as it was; when there is no
live entry it builds a `File` for `filepath.Join(root, key)`: on success the
`File` is stored under `key` and the `Get(key)` that follows returns that same
`File`, on failure the construction error is returned and the state is left as
it was. -/
theorem New_open_spec (w : World) (s : State) (key : String)
    (hopen : s.fc.closed = false) :
    ((FileCacher.New w s key).1.2 = some .ErrFileExists ↔ s.live key) ∧
    (s.live key → FileCacher.New w s key = ((none, some .ErrFileExists), s)) ∧
    (¬ s.live key → ∀ file, NewFile w (w.filepathJoin s.fc.root key) = .ok file →
      ∃ ptr, (FileCacher.New w s key).1 = (some ptr, none) ∧
        (FileCacher.New w s key).2.heap ptr = file ∧
        mapGet (FileCacher.New w s key).2.fc.m key = some ptr ∧
        (FileCacher.Get (FileCacher.New w s key).2 key).1 = (some ptr, none)) ∧
    (¬ s.live key → ∀ err, NewFile w (w.filepathJoin s.fc.root key) = .error err →
      FileCacher.New w s key = ((none, some err), s)) := by
  refine ⟨⟨?_, ?_⟩, ?_, ?_, ?_⟩
  · intro h
    by_contra hl
    rw [New_of_not_live hopen hl] at h
    unfold FileCacher.create at h
    cases hn : NewFile w (w.filepathJoin s.fc.root key) with
    | error err =>
      simp [hn] at h
      subst h
      rcases NewFile_error_foreign hn with h1 | ⟨msg, h1⟩ <;> cases h1
    | ok file => simp [hn] at h
  · intro h
    rw [New_of_live hopen h]
  · intro h
    exact New_of_live hopen h
  · intro hl file hn
    have hN : FileCacher.New w s key =
        ((some s.next, none),
          { heap := Function.update s.heap s.next file,
            next := s.next + 1,
            fc := { s.fc with m := mapSet s.fc.m key s.next } }) := by
      rw [New_of_not_live hopen hl]
      simp [FileCacher.create, hn]
    refine ⟨s.next, ?_, ?_, ?_, ?_⟩
    · rw [hN]
    · rw [hN]
      simp
    · rw [hN]
      exact mapGet_mapSet_self _ _ _
    · rw [hN]
      have hc : file.closed = false := (NewFile_ok_open hn).1
      simp [FileCacher.Get, hopen, FileCacher.get, mapGet_mapSet_self, atomsGet, hc]
  · intro hl err hn
    rw [New_of_not_live hopen hl]
    simp [FileCacher.create, hn]

/-- C2, at the registry holding a live `a` over `hello`: `New("a")` fails with
`ErrFileExists`, `New("b")` stores a new `File` that `Get("b")` returns. -/
theorem New_open_spec_witness :
    stateA.fc.closed = false ∧
    FileCacher.New (worldWith helloBytes) stateA "a" = ((none, some .ErrFileExists), stateA) ∧
    ∃ ptr, (FileCacher.New (worldWith helloBytes) stateA "b").1 = (some ptr, none) ∧
      (FileCacher.Get (FileCacher.New (worldWith helloBytes) stateA "b").2 "b").1
        = (some ptr, none) :=
  ⟨by decide,
   (New_open_spec (worldWith helloBytes) stateA "a" (by decide)).2.1
     ⟨0, by decide, by decide⟩,
   by
     obtain ⟨ptr, h1, _, _, h4⟩ :=
       (New_open_spec (worldWith helloBytes) stateA "b" (by decide)).2.2.1
         (by
           rintro ⟨file, hm, _⟩
           have h0 : mapGet stateA.fc.m "b" = none := by decide
           rw [h0] at hm
           exact Option.noConfusion hm)
         _ rfl
     exact ⟨ptr, h1, h4⟩⟩

/-! ## C3: `Unmount` -/

theorem Unmount_of_live {s : State} {key : String} {file : Nat}
    (hopen : s.fc.closed = false)
    (hm : mapGet s.fc.m key = some file) (hc : (s.heap file).closed = false) :
    FileCacher.Unmount s key =
      (none,
        { heap := Function.update s.heap file (s.heap file).Close.1,
          next := s.next,
          fc := { s.fc with m := mapDelete s.fc.m key } }) := by
  simp [FileCacher.Unmount, hopen, get_of_live hm hc, State.closeFile]

theorem Unmount_of_not_live {s : State} {key : String}
    (hopen : s.fc.closed = false) (h : ¬ s.live key) :
    FileCacher.Unmount s key = (some .ErrFileNotFound, s) := by
  have h2 := get_of_not_live h
  unfold FileCacher.Unmount
  rw [if_neg (by simp [hopen])]
  rcases hg : FileCacher.get s key with ⟨f0, e0⟩
  rw [hg] at h2
  simp only at h2
  subst h2
  cases f0 <;> rfl

theorem WF_no_alias {s : State} (hwf : s.WF) {k1 k2 : String} {file : Nat}
    (h1 : mapGet s.fc.m k1 = some file) (h2 : mapGet s.fc.m k2 = some file) :
    k1 = k2 := by
  have h := List.inj_on_of_nodup_map hwf.2 (mapGet_mem h1) (mapGet_mem h2) rfl
  exact congrArg Prod.fst h

/-- C3: in an open registry whose entries hold distinct pointers, `Unmount` of
a key with a live entry returns no error, removes the key from the map and
closes the entry's `File`, so that the `Get(key)` that follows returns
`ErrFileNotFound` and a `Read` on the removed `File` returns `ErrIsClosed`
without calling the consumer; the entry of every other key and the `File` it
holds are as before.  With no live entry `Unmount` returns `ErrFileNotFound`
and leaves the state as it was. -/
theorem Unmount_open_spec (s : State) (key : String)
    (hopen : s.fc.closed = false) (hwf : s.WF) :
    (∀ file, mapGet s.fc.m key = some file → (s.heap file).closed = false →
      (FileCacher.Unmount s key).1 = none ∧
      mapGet (FileCacher.Unmount s key).2.fc.m key = none ∧
      ((FileCacher.Unmount s key).2.heap file).closed = true ∧
      (FileCacher.Get (FileCacher.Unmount s key).2 key).1 = (none, some .ErrFileNotFound) ∧
      (∀ (σ : Type) (fn : Bytes → σ → Option Error × σ) (a : σ),
        ((FileCacher.Unmount s key).2.heap file).Read fn a = (some .ErrIsClosed, a)) ∧
      (∀ k, k ≠ key →
        mapGet (FileCacher.Unmount s key).2.fc.m k = mapGet s.fc.m k ∧
        ∀ other, mapGet s.fc.m k = some other →
          (FileCacher.Unmount s key).2.heap other = s.heap other) ∧
      (FileCacher.Unmount s key).2.fc.closed = false) ∧
    (¬ s.live key → FileCacher.Unmount s key = (some .ErrFileNotFound, s)) := by
  refine ⟨?_, Unmount_of_not_live hopen⟩
  intro file hm hc
  rw [Unmount_of_live hopen hm hc]
  have hcl : ((s.heap file).Close.1).closed = true := File.Close_fst_closed _
  refine ⟨rfl, mapGet_mapDelete_self _ _, by simp [hcl], ?_, ?_, ?_, hopen⟩
  · simp [FileCacher.Get, hopen, FileCacher.get, mapGet_mapDelete_self]
  · intro σ fn a
    exact File.Read_closed _ (by simp [hcl]) fn a
  · intro k hk
    refine ⟨mapGet_mapDelete_ne _ hk, ?_⟩
    intro other ho
    have hne : other ≠ file := by
      intro he
      subst he
      exact hk (WF_no_alias hwf ho hm)
    simp [Function.update_noteq hne]

/-- C3, at the registry holding a live `a`: `Unmount("a")` succeeds and the
`Get("a")` that follows returns `ErrFileNotFound`; `Unmount("b")` returns
`ErrFileNotFound`. -/
theorem Unmount_open_spec_witness :
    stateA.fc.closed = false ∧ stateA.WF ∧
    (FileCacher.Unmount stateA "a").1 = none ∧
    (FileCacher.Get (FileCacher.Unmount stateA "a").2 "a").1 = (none, some .ErrFileNotFound) ∧
    FileCacher.Unmount stateA "b" = (some .ErrFileNotFound, stateA) :=
  have hwf : stateA.WF := by
    unfold State.WF
    decide
  have h := (Unmount_open_spec stateA "a" (by decide) hwf).1 0 (by decide) (by decide)
  ⟨by decide, hwf, h.1, h.2.2.2.1,
   (Unmount_open_spec stateA "b" (by decide) hwf).2 (by
      rintro ⟨file, hm, _⟩
      have h0 : mapGet stateA.fc.m "b" = none := by decide
      rw [h0] at hm
      exact Option.noConfusion hm)⟩

/-! ## The closing loop and the closed registry -/

theorem File.Close_fst_idem (f : File) : f.Close.1.Close.1 = f.Close.1 := by
  rw [File.Close_closed _ (File.Close_fst_closed f)]

theorem File.refreshBuffer_fields (w : World) (f : File) :
    (f.refreshBuffer w).1.closed = f.closed ∧ (f.refreshBuffer w).1.p = f.p ∧
      (f.refreshBuffer w).1.filename = f.filename := by
  unfold File.refreshBuffer
  cases w.osOpen f.filename with
  | notExist => simp
  | failed msg => simp
  | opened data readErr => cases readErr <;> simp

theorem File.onEvent_closed (w : World) (f : File) (e : Event) (h : f.closed = true) :
    (f.onEvent w e).closed = true := by
  cases e
  · simp [File.onEvent, (File.refreshBuffer_fields w f).1, h]
  · simp [File.onEvent, File.Close_fst_closed]
  · simp [File.onEvent, h]

theorem closeLoop_fields (m : FileMap) (s : State) :
    (m.foldl (fun st e => (st.closeFile e.2).1) s).fc = s.fc ∧
      (m.foldl (fun st e => (st.closeFile e.2).1) s).next = s.next := by
  induction m generalizing s with
  | nil => exact ⟨rfl, rfl⟩
  | cons e rest ih =>
    simp only [List.foldl_cons]
    exact ⟨(ih _).1, (ih _).2⟩

theorem closeLoop_heap (m : FileMap) (s : State) (file : Nat) :
    ((∃ e ∈ m, e.2 = file) →
      (m.foldl (fun st e => (st.closeFile e.2).1) s).heap file = (s.heap file).Close.1) ∧
    ((¬ ∃ e ∈ m, e.2 = file) →
      (m.foldl (fun st e => (st.closeFile e.2).1) s).heap file = s.heap file) := by
  induction m generalizing s with
  | nil => simp
  | cons e rest ih =>
    simp only [List.foldl_cons]
    by_cases he : e.2 = file
    · have h1 : ((s.closeFile e.2).1).heap file = (s.heap file).Close.1 := by
        subst he
        simp [State.closeFile]
      constructor
      · intro _
        by_cases hr : ∃ e1 ∈ rest, e1.2 = file
        · rw [(ih _).1 hr, h1, File.Close_fst_idem]
        · rw [(ih _).2 hr, h1]
      · intro hn
        exact absurd ⟨e, List.mem_cons_self _ _, he⟩ hn
    · have h1 : ((s.closeFile e.2).1).heap file = s.heap file := by
        have hne : file ≠ e.2 := fun h => he h.symm
        simp [State.closeFile, Function.update_noteq hne]
      constructor
      · rintro ⟨e1, hmem, h2⟩
        rcases List.mem_cons.mp hmem with h3 | h3
        · exact absurd (h3 ▸ h2) he
        · rw [(ih _).1 ⟨e1, h3, h2⟩, h1]
      · intro hn
        have hr : ¬ ∃ e1 ∈ rest, e1.2 = file := by
          rintro ⟨e1, hmem, h2⟩
          exact hn ⟨e1, List.mem_cons_of_mem _ hmem, h2⟩
        rw [(ih _).2 hr, h1]

theorem Close_of_open {s : State} (hopen : s.fc.closed = false) :
    FileCacher.Close s =
      (none, s.fc.m.foldl (fun st e => (st.closeFile e.2).1)
        { s with fc := { s.fc with closed := true } }) := by
  simp [FileCacher.Close, hopen]

theorem Close_open_fc {s : State} (hopen : s.fc.closed = false) :
    (FileCacher.Close s).2.fc = { s.fc with closed := true } := by
  rw [Close_of_open hopen]
  exact (closeLoop_fields _ _).1

theorem Close_open_heap {s : State} (hopen : s.fc.closed = false) (file : Nat) :
    ((∃ e ∈ s.fc.m, e.2 = file) →
      (FileCacher.Close s).2.heap file = (s.heap file).Close.1) ∧
    ((¬ ∃ e ∈ s.fc.m, e.2 = file) →
      (FileCacher.Close s).2.heap file = s.heap file) := by
  rw [Close_of_open hopen]
  exact closeLoop_heap _ _ file

theorem New_of_closed (w : World) {s : State} (key : String) (h : s.fc.closed = true) :
    FileCacher.New w s key = ((none, some .ErrIsClosed), s) := by
  simp [FileCacher.New, h]

theorem Get_of_closed {s : State} (key : String) (h : s.fc.closed = true) :
    FileCacher.Get s key = ((none, some .ErrIsClosed), s) := by
  simp [FileCacher.Get, h]

theorem GetOrCreate_of_closed (w : World) {s : State} (key : String)
    (h : s.fc.closed = true) :
    FileCacher.GetOrCreate w s key = ((none, some .ErrIsClosed), s) := by
  simp [FileCacher.GetOrCreate, Get_of_closed key h, New_of_closed w key h]

theorem Read_of_closed {σ : Type} (w : World) {s : State} (key : String)
    (fn : Bytes → σ → Option Error × σ) (a : σ) (h : s.fc.closed = true) :
    FileCacher.Read w s key fn a = ((some .ErrIsClosed, a), s) := by
  simp [FileCacher.Read, GetOrCreate_of_closed w key h]

theorem Unmount_of_closed {s : State} (key : String) (h : s.fc.closed = true) :
    FileCacher.Unmount s key = (some .ErrIsClosed, s) := by
  simp [FileCacher.Unmount, h]

theorem Close_of_closed {s : State} (h : s.fc.closed = true) :
    FileCacher.Close s = (some .ErrIsClosed, s) := by
  simp [FileCacher.Close, h]

theorem step_of_closed {σ : Type} (w : World) (x : State × σ) (op : Op σ)
    (h : x.1.fc.closed = true) :
    (step w x op).1.fc = x.1.fc ∧
      ∀ file, (x.1.heap file).closed = true → ((step w x op).1.heap file).closed = true := by
  cases op with
  | New key => simp [step, New_of_closed w key h]
  | Get key => simp [step, Get_of_closed key h]
  | GetOrCreate key => simp [step, GetOrCreate_of_closed w key h]
  | Read key fn => simp [step, Read_of_closed w key fn x.2 h]
  | Unmount key => simp [step, Unmount_of_closed key h]
  | Close => simp [step, Close_of_closed h]
  | FileRead file fn => simp [step]
  | FileClose file =>
    refine ⟨rfl, ?_⟩
    intro j hj
    by_cases hjf : j = file
    · subst hjf
      simp [step, State.closeFile, File.Close_fst_closed]
    · simp [step, State.closeFile, Function.update_noteq hjf, hj]
  | Event file e =>
    refine ⟨rfl, ?_⟩
    intro j hj
    by_cases hjf : j = file
    · subst hjf
      simp [step, State.onEvent, File.onEvent_closed w _ e hj]
    · simp [step, State.onEvent, Function.update_noteq hjf, hj]

theorem run_of_closed {σ : Type} (ops : List (World × Op σ)) (x : State × σ)
    (h : x.1.fc.closed = true) :
    (run ops x).1.fc = x.1.fc ∧
      ∀ file, (x.1.heap file).closed = true → ((run ops x).1.heap file).closed = true := by
  induction ops generalizing x with
  | nil => exact ⟨rfl, fun _ hj => hj⟩
  | cons o rest ih =>
    obtain ⟨w, op⟩ := o
    have hs := step_of_closed w x op h
    have hc : (step w x op).1.fc.closed = true := by rw [hs.1]; exact h
    have hr := ih (step w x op) hc
    refine ⟨by rw [run, hr.1, hs.1], ?_⟩
    intro j hj
    rw [run]
    exact hr.2 j (hs.2 j hj)

/-! ## C5: `FileCacher.Close` and the closed registry -/

/-- C5: `Close` on an open registry returns no error, whatever the state of the
mapped `File`s, sets `closed` and leaves every `File` of the map closed; after
any further sequence of calls (the six methods of the registry, and also
`File.Read`, `File.Close` and poller events) `closed` is still set, the map is
the one `Close` found, every `File` of the map is still closed, and `Close`
returns `ErrIsClosed` and changes nothing. -/
theorem Close_open_spec (s : State) (hopen : s.fc.closed = false) :
    (FileCacher.Close s).1 = none ∧
    (FileCacher.Close s).2.fc.closed = true ∧
    (∀ e ∈ (FileCacher.Close s).2.fc.m, ((FileCacher.Close s).2.heap e.2).closed = true) ∧
    ∀ (σ : Type) (ops : List (World × Op σ)) (a : σ),
      (run ops ((FileCacher.Close s).2, a)).1.fc.closed = true ∧
      (run ops ((FileCacher.Close s).2, a)).1.fc.m = s.fc.m ∧
      (∀ e ∈ (run ops ((FileCacher.Close s).2, a)).1.fc.m,
        ((run ops ((FileCacher.Close s).2, a)).1.heap e.2).closed = true) ∧
      FileCacher.Close (run ops ((FileCacher.Close s).2, a)).1 =
        (some .ErrIsClosed, (run ops ((FileCacher.Close s).2, a)).1) := by
  have hfc := Close_open_fc hopen
  have hcl : (FileCacher.Close s).2.fc.closed = true := by rw [hfc]
  have hm : (FileCacher.Close s).2.fc.m = s.fc.m := by rw [hfc]
  have hall : ∀ e ∈ s.fc.m, ((FileCacher.Close s).2.heap e.2).closed = true := by
    intro e he
    rw [(Close_open_heap hopen e.2).1 ⟨e, he, rfl⟩]
    exact File.Close_fst_closed _
  refine ⟨by rw [Close_of_open hopen], hcl, by rw [hm]; exact hall, ?_⟩
  intro σ ops a
  have hr := run_of_closed ops ((FileCacher.Close s).2, a) hcl
  have hc2 : (run ops ((FileCacher.Close s).2, a)).1.fc.closed = true := by
    rw [hr.1]; exact hcl
  refine ⟨hc2, by rw [hr.1]; exact hm, ?_, Close_of_closed hc2⟩
  intro e he
  rw [hr.1, hm] at he
  exact hr.2 e.2 (hall e he)

/-- C5, at the registry holding a live `a`: `Close` returns no error and closes
the `File` of `a`; after a `New("b")` and a write event the registry is still
closed and a second `Close` returns `ErrIsClosed`. -/
theorem Close_open_spec_witness :
    stateA.fc.closed = false ∧
    (FileCacher.Close stateA).1 = none ∧
    ((FileCacher.Close stateA).2.heap 0).closed = true ∧
    (FileCacher.Close (run [(worldWith worldBytes, Op.New "b"),
        (worldWith worldBytes, Op.Event 0 Event.EventWrite)]
        ((FileCacher.Close stateA).2, ())).1).1 = some .ErrIsClosed :=
  have h := Close_open_spec stateA (by decide)
  ⟨by decide, h.1, h.2.2.1 ("a", 0) (by decide),
   by rw [(h.2.2.2 Unit _ ()).2.2.2]⟩

/-! ## C4: after `FileCacher.Close` -/

/-- C4 as stated fails: `a` has a live entry, `Close` succeeds, and the
`Get("a")` that follows returns `ErrIsClosed`, not `ErrFileNotFound`. -/
theorem Get_after_Close_counterexample :
    stateA.fc.closed = false ∧
    mapGet stateA.fc.m "a" = some 0 ∧ (stateA.heap 0).closed = false ∧
    (FileCacher.Close stateA).1 = none ∧
    (FileCacher.Get (FileCacher.Close stateA).2 "a").1 = (none, some .ErrIsClosed) ∧
    (FileCacher.Get (FileCacher.Close stateA).2 "a").1.2 ≠ some .ErrFileNotFound := by
  decide

/-- C4, amended: after `Close` has succeeded on a registry, and after any
further sequence of calls, for every key `FileCacher.Read(key, fn)` returns
`ErrIsClosed` without calling `fn` and `FileCacher.Get(key)` returns
`ErrIsClosed` as well, the closed guard coming before the lookup; the lookup
`get(key)` itself reports `ErrFileNotFound` for every key that was mapped
before the `Close`. -/
theorem Close_then_Read_Get (s : State) (hopen : s.fc.closed = false) :
    (FileCacher.Close s).1 = none ∧
    ∀ (σ : Type) (ops : List (World × Op σ)) (a : σ) (w : World) (key : String),
      (∀ (fn : Bytes → σ → Option Error × σ) (b : σ),
        FileCacher.Read w (run ops ((FileCacher.Close s).2, a)).1 key fn b =
          ((some .ErrIsClosed, b), (run ops ((FileCacher.Close s).2, a)).1)) ∧
      FileCacher.Get (run ops ((FileCacher.Close s).2, a)).1 key =
        ((none, some .ErrIsClosed), (run ops ((FileCacher.Close s).2, a)).1) ∧
      (∀ file, mapGet s.fc.m key = some file →
        FileCacher.get (run ops ((FileCacher.Close s).2, a)).1 key =
          (some file, some .ErrFileNotFound)) := by
  have hfc := Close_open_fc hopen
  have hcl : (FileCacher.Close s).2.fc.closed = true := by rw [hfc]
  refine ⟨by rw [Close_of_open hopen], ?_⟩
  intro σ ops a w key
  have hr := run_of_closed ops ((FileCacher.Close s).2, a) hcl
  have hc2 : (run ops ((FileCacher.Close s).2, a)).1.fc.closed = true := by
    rw [hr.1]; exact hcl
  refine ⟨fun fn b => Read_of_closed w key fn b hc2, Get_of_closed key hc2, ?_⟩
  intro file hm
  have hm2 : mapGet (run ops ((FileCacher.Close s).2, a)).1.fc.m key = some file := by
    rw [hr.1, hfc]; exact hm
  have hclosed : ((FileCacher.Close s).2.heap file).closed = true := by
    rw [(Close_open_heap hopen file).1 ⟨(key, file), mapGet_mem hm, rfl⟩]
    exact File.Close_fst_closed _
  have h2 := hr.2 file hclosed
  simp [FileCacher.get, hm2, atomsGet, h2]

/-- C4, amended, at the registry holding a live `a`: after `Close` both
`Read("a", fn)` and `Get("a")` return `ErrIsClosed`. -/
theorem Close_then_Read_Get_witness :
    stateA.fc.closed = false ∧
    (FileCacher.Close stateA).1 = none ∧
    (FileCacher.Read (worldWith helloBytes) (FileCacher.Close stateA).2 "a"
        (fun (b : Bytes) (_ : Bytes) => (none, b)) []).1 = (some .ErrIsClosed, []) ∧
    (FileCacher.Get (FileCacher.Close stateA).2 "a").1 = (none, some .ErrIsClosed) :=
  have h := Close_then_Read_Get stateA (by decide)
  have h2 := h.2 Bytes [] [] (worldWith helloBytes) "a"
  ⟨by decide, h.1,
   congrArg Prod.fst (h2.1 (fun (b : Bytes) (_ : Bytes) => (none, b)) []),
   congrArg Prod.fst h2.2.1⟩

/-! ## C6: the close triggers -/

theorem fire_heap (w : World) (file : Nat) (s : State) (t : Trigger) (j : Nat) :
    (fire w file s t).heap j = s.heap j ∨
      (fire w file s t).heap j = (s.heap j).Close.1 := by
  cases t with
  | fileClose =>
    by_cases hj : j = file
    · subst hj
      exact Or.inr (by simp [fire, State.closeFile])
    · exact Or.inl (by simp [fire, State.closeFile, Function.update_noteq hj])
  | unmount key =>
    cases hc : s.fc.closed
    · by_cases hl : s.live key
      · obtain ⟨f0, hm, hf⟩ := hl
        by_cases hj : j = f0
        · subst hj
          exact Or.inr (by simp [fire, Unmount_of_live hc hm hf])
        · exact Or.inl (by simp [fire, Unmount_of_live hc hm hf, Function.update_noteq hj])
      · exact Or.inl (by simp [fire, Unmount_of_not_live hc hl])
    · exact Or.inl (by simp [fire, Unmount_of_closed key hc])
  | registryClose =>
    cases hc : s.fc.closed
    · by_cases hmem : ∃ e ∈ s.fc.m, e.2 = j
      · exact Or.inr ((Close_open_heap hc j).1 hmem)
      · exact Or.inl ((Close_open_heap hc j).2 hmem)
    · exact Or.inl (by simp [fire, Close_of_closed hc])
  | removeEvent =>
    by_cases hj : j = file
    · subst hj
      exact Or.inr (by simp [fire, State.onEvent, File.onEvent])
    · exact Or.inl (by simp [fire, State.onEvent, Function.update_noteq hj])

theorem fire_heap_of_closed (w : World) (file : Nat) (s : State) (t : Trigger) (j : Nat)
    (h : (s.heap j).closed = true) : (fire w file s t).heap j = s.heap j := by
  rcases fire_heap w file s t j with h1 | h1
  · exact h1
  · rw [h1, File.Close_closed _ h]

theorem fireAll_heap_of_closed (w : World) (file : Nat) (ts : List Trigger) (s : State)
    (j : Nat) (h : (s.heap j).closed = true) : (fireAll w file ts s).heap j = s.heap j := by
  induction ts generalizing s with
  | nil => rfl
  | cons t rest ih =>
    have h1 := fire_heap_of_closed w file s t j h
    rw [fireAll, ih (fire w file s t) (by rw [h1]; exact h), h1]

theorem ClosedInv_open_of_mem {s : State} (hinv : s.ClosedInv) {e : String × Nat}
    (he : e ∈ s.fc.m) (hopen : (s.heap e.2).closed = false) : s.fc.closed = false := by
  cases hc : s.fc.closed
  · rfl
  · have h := hinv hc e he
    rw [hopen] at h
    exact Bool.noConfusion h

theorem fire_applied (w : World) (file : Nat) (s : State) (t : Trigger)
    (hinv : s.ClosedInv) (hopen : (s.heap file).closed = false)
    (happ : t.appliesTo file s) :
    (fire w file s t).heap file = (s.heap file).Close.1 := by
  cases t with
  | fileClose => simp [fire, State.closeFile]
  | unmount key =>
    have hm : mapGet s.fc.m key = some file := happ
    have hc := ClosedInv_open_of_mem hinv (mapGet_mem hm) hopen
    simp [fire, Unmount_of_live hc hm hopen]
  | registryClose =>
    obtain ⟨e, he, hef⟩ := happ
    subst hef
    have hc := ClosedInv_open_of_mem hinv he hopen
    exact (Close_open_heap hc e.2).1 ⟨e, he, rfl⟩
  | removeEvent => simp [fire, State.onEvent, File.onEvent]

/-- C6: for a `File` that is open, in a state where a closed registry holds
only closed `File`s, and any sequence of close triggers (explicit `File.Close`,
`Unmount`, the registry's `Close`, a remove event) whose first one is applied
to it: the `File.Close` of the first trigger returns no error and performs the
transition to closed, releasing the poller once; after any number of later
triggers the `File` is exactly as the first one left it and `File.Close` on it
returns `ErrIsClosed` and changes nothing; so over the whole sequence the
poller is released exactly once. -/
theorem close_triggers_spec (w : World) (s : State) (file : Nat)
    (t : Trigger) (ts : List Trigger)
    (hinv : s.ClosedInv) (hopen : (s.heap file).closed = false)
    (happ : t.appliesTo file s) :
    (s.heap file).Close.2 = none ∧
    (fire w file s t).heap file = (s.heap file).Close.1 ∧
    ((fire w file s t).heap file).closed = true ∧
    ((fire w file s t).heap file).p.closeCalls = (s.heap file).p.closeCalls + 1 ∧
    (fireAll w file ts (fire w file s t)).heap file = (fire w file s t).heap file ∧
    ((fireAll w file ts (fire w file s t)).heap file).Close =
      ((fireAll w file ts (fire w file s t)).heap file, some .ErrIsClosed) ∧
    ((fireAll w file (t :: ts) s).heap file).closed = true ∧
    ((fireAll w file (t :: ts) s).heap file).p.closeCalls =
      (s.heap file).p.closeCalls + 1 := by
  have h1 := fire_applied w file s t hinv hopen happ
  have hcl : ((fire w file s t).heap file).closed = true := by
    rw [h1]; exact File.Close_fst_closed _
  have hcnt : ((fire w file s t).heap file).p.closeCalls = (s.heap file).p.closeCalls + 1 := by
    rw [h1, File.Close_open _ hopen]
    simp [Poller.Close]
  have hlater := fireAll_heap_of_closed w file ts (fire w file s t) file hcl
  refine ⟨by rw [File.Close_open _ hopen], h1, hcl, hcnt, hlater, ?_, ?_, ?_⟩
  · exact File.Close_closed _ (by rw [hlater]; exact hcl)
  · rw [fireAll, hlater]; exact hcl
  · rw [fireAll, hlater]; exact hcnt

/-- C6, at the registry holding a live `a` at address 0: `Unmount("a")`, then
the registry's `Close`, an explicit `File.Close` and a remove event leave the
`File` closed with its poller released once. -/
theorem close_triggers_spec_witness :
    stateA.ClosedInv ∧ (stateA.heap 0).closed = false ∧
    (Trigger.unmount "a").appliesTo 0 stateA ∧
    (stateA.heap 0).Close.2 = none ∧
    ((fireAll (worldWith helloBytes) 0
        [.unmount "a", .registryClose, .fileClose, .removeEvent] stateA).heap 0).Close.2
      = some .ErrIsClosed ∧
    ((fireAll (worldWith helloBytes) 0
        [.unmount "a", .registryClose, .fileClose, .removeEvent] stateA).heap 0).p.closeCalls
      = 1 :=
  have hinv : stateA.ClosedInv := fun h => absurd h (by decide)
  have happ : (Trigger.unmount "a").appliesTo 0 stateA := by
    show mapGet stateA.fc.m "a" = some 0
    decide
  have h := close_triggers_spec (worldWith helloBytes) stateA 0 (.unmount "a")
    [.registryClose, .fileClose, .removeEvent] hinv (by decide) happ
  ⟨hinv, by decide, happ, h.1, congrArg Prod.snd h.2.2.2.2.2.1, h.2.2.2.2.2.2.2⟩

/-! ## C7: contents handed to the consumer -/

theorem File.refreshBuffer_opened (w : World) (f : File) {data : Bytes}
    {readErr : Option String} (h : w.osOpen f.filename = .opened data readErr) :
    (f.refreshBuffer w).1 = { f with b := data } := by
  unfold File.refreshBuffer
  cases readErr <;> simp [h]

theorem File.refreshBuffer_not_opened (w : World) (f : File)
    (h : ∀ data readErr, w.osOpen f.filename ≠ .opened data readErr) :
    (f.refreshBuffer w).1 = f ∧ (f.refreshBuffer w).2 ≠ none := by
  unfold File.refreshBuffer
  cases ho : w.osOpen f.filename with
  | notExist => simp
  | failed msg => simp
  | opened data readErr => exact absurd ho (h data readErr)

/-- C7: a `File` built by `NewFile` while the underlying file holds `c` hands
the consumer of `Read` exactly `c`, and `Read` returns what the consumer
returns; after a write event handled while the underlying file holds `c1` the
consumer is handed exactly `c1`; after a remove event `Read` returns
`ErrIsClosed` and the consumer is not called. -/
theorem File_scenario_spec (w w1 w2 : World) (filename : String) (c c1 : Bytes) (f : File)
    (hfs : w.osOpen filename = .opened c none)
    (hnew : NewFile w filename = .ok f)
    (hfs1 : w1.osOpen filename = .opened c1 none) :
    (∀ (σ : Type) (fn : Bytes → σ → Option Error × σ) (a : σ), f.Read fn a = fn c a) ∧
    (f.onEvent w1 .EventWrite).b = c1 ∧
    (∀ (σ : Type) (fn : Bytes → σ → Option Error × σ) (a : σ),
      (f.onEvent w1 .EventWrite).Read fn a = fn c1 a) ∧
    (∀ (σ : Type) (fn : Bytes → σ → Option Error × σ) (a : σ),
      ((f.onEvent w1 .EventWrite).onEvent w2 .EventRemove).Read fn a
        = (some .ErrIsClosed, a)) ∧
    (∀ (σ : Type) (fn : Bytes → σ → Option Error × σ) (a : σ),
      (f.onEvent w2 .EventRemove).Read fn a = (some .ErrIsClosed, a)) := by
  obtain ⟨hc, _, hname, data, hd, hb⟩ := NewFile_ok_open hnew
  have hdc : data = c := by
    rw [hfs] at hd
    injection hd with h1 _
    exact h1.symm
  have hfs1f : w1.osOpen f.filename = .opened c1 none := by rw [hname]; exact hfs1
  have hw : f.onEvent w1 .EventWrite = { f with b := c1 } := by
    simp [File.onEvent, File.refreshBuffer_opened w1 f hfs1f]
  refine ⟨?_, ?_, ?_, ?_, ?_⟩
  · intro σ fn a
    rw [File.Read_open f hc, hb, hdc]
  · rw [hw]
  · intro σ fn a
    rw [hw, File.Read_open _ (by simpa using hc)]
  · intro σ fn a
    exact File.Read_closed _ (by simp [File.onEvent, File.Close_fst_closed]) fn a
  · intro σ fn a
    exact File.Read_closed _ (by simp [File.onEvent, File.Close_fst_closed]) fn a

/-- C7, with `c` the bytes of `hello` and `c1` the bytes of `world!`, and a
consumer that stores what it is handed. -/
theorem File_scenario_spec_witness :
    (worldWith helloBytes).osOpen "/r/a" = .opened helloBytes none ∧
    NewFile (worldWith helloBytes) "/r/a" = .ok fileHello ∧
    (worldWith worldBytes).osOpen "/r/a" = .opened worldBytes none ∧
    fileHello.Read (fun (b : Bytes) (_ : Bytes) => (none, b)) [] = (none, helloBytes) ∧
    (fileHello.onEvent (worldWith worldBytes) .EventWrite).Read
      (fun (b : Bytes) (_ : Bytes) => (none, b)) [] = (none, worldBytes) ∧
    ((fileHello.onEvent (worldWith worldBytes) .EventWrite).onEvent
      (worldWith worldBytes) .EventRemove).Read
      (fun (b : Bytes) (_ : Bytes) => (none, b)) [] = (some .ErrIsClosed, []) :=
  have h := File_scenario_spec (worldWith helloBytes) (worldWith worldBytes)
    (worldWith worldBytes) "/r/a" helloBytes worldBytes fileHello rfl rfl rfl
  ⟨rfl, rfl, rfl, h.1 Bytes _ [], h.2.2.1 Bytes _ [], h.2.2.2.1 Bytes _ []⟩

/-! ## C8: a write event on a closed `File` -/

/-- C8 against the code: the `File` over `hello` is closed and a write event
arrives while the underlying file holds `world!`.  `onEvent` does not look at
the closed flag: the event is exactly one `refreshBuffer`, which opens and
reads the file with success, and the buffer is `world!` afterwards, not
`hello`.  The `File` stays closed, so `Read` returns `ErrIsClosed`. -/
theorem onEvent_closed_write_refreshes :
    fileHello.Close.1.closed = true ∧
    fileHello.Close.1.b = helloBytes ∧
    fileHello.Close.1.onEvent (worldWith worldBytes) .EventWrite =
      (fileHello.Close.1.refreshBuffer (worldWith worldBytes)).1 ∧
    (fileHello.Close.1.refreshBuffer (worldWith worldBytes)).2 = none ∧
    (fileHello.Close.1.onEvent (worldWith worldBytes) .EventWrite).b = worldBytes ∧
    (fileHello.Close.1.onEvent (worldWith worldBytes) .EventWrite).b ≠ fileHello.Close.1.b ∧
    (fileHello.Close.1.onEvent (worldWith worldBytes) .EventWrite).closed = true ∧
    (fileHello.Close.1.onEvent (worldWith worldBytes) .EventWrite).Read
      (fun (b : Bytes) (_ : Bytes) => (none, b)) [] = (some .ErrIsClosed, []) := by
  decide

/-! ## C9: a refresh that fails -/

/-- C9 against the code: the open `File` holds `hello`; a write event arrives
while the underlying file delivers the two bytes `wo` and then a read error.
`refreshBuffer` fails, `onEvent` drops the error, and the buffer is `wo`: the
`Read` that follows hands the consumer `wo`, not `hello`. -/
theorem refresh_torn_buffer :
    fileHello.closed = false ∧ fileHello.b = helloBytes ∧
    (fileHello.refreshBuffer (worldTorn [119, 111])).2 = some (.foreign "read error") ∧
    (fileHello.onEvent (worldTorn [119, 111]) .EventWrite).b = [119, 111] ∧
    (fileHello.onEvent (worldTorn [119, 111]) .EventWrite).b ≠ fileHello.b ∧
    (fileHello.onEvent (worldTorn [119, 111]) .EventWrite).Read
      (fun (b : Bytes) (_ : Bytes) => (none, b)) [] = (none, [119, 111]) := by
  decide

/-! ## C10: two interleaved `GetOrCreate` -/

/-- A call of `GetOrCreate` that is given its two steps in a row does what the
method does. -/
theorem gocRun_sequential (w : World) (key : String) (s : State) (b : GocThread) :
    gocRun w key [false, false] (s, .start, b) =
      ((FileCacher.GetOrCreate w s key).2, .done (FileCacher.GetOrCreate w s key).1, b) := by
  have hG : (FileCacher.Get s key).2 = s := by
    unfold FileCacher.Get
    split <;> rfl
  cases h : (FileCacher.Get s key).1.2 with
  | none => simp [gocRun, gocStep, FileCacher.GetOrCreate, h]
  | some err => simp [gocRun, gocStep, FileCacher.GetOrCreate, h, hG]

/-- C10 as stated fails: on the open, empty registry rooted at `/r`, with the
file of `b` present, the schedule `Get`, `Get`, `New`, `New` of two calls
`GetOrCreate("b")` ends with the first call holding the new `File` and the
second call holding `ErrFileExists`. -/
theorem GetOrCreate_race_counterexample :
    (State.init "/r").fc.closed = false ∧
    mapGet (State.init "/r").fc.m "b" = none ∧
    (worldWith helloBytes).osOpen "/r/b" = .opened helloBytes none ∧
    (gocRun (worldWith helloBytes) "b" [false, true, false, true]
        (State.init "/r", .start, .start)).2 =
      (.done (some 0, none), .done (none, some .ErrFileExists)) := by
  decide

/-- C10, amended: for an open registry, a key with no entry and a file that
`NewFile` can build, every interleaving of the steps of two calls
`GetOrCreate(key)` is one of six; in each the `File` is created once, at the
next address, and a `Get(key)` afterwards returns it.  When one call takes both
its steps before the other starts, both calls return that `File` with no error.
When both `Get`s come before both `New`s, the call whose `New` comes first
returns the `File` and the other call returns `ErrFileExists`. -/
theorem GetOrCreate_interleavings (w : World) (s : State) (key : String) (file : File)
    (hopen : s.fc.closed = false) (hnone : mapGet s.fc.m key = none)
    (hnew : NewFile w (w.filepathJoin s.fc.root key) = .ok file)
    (sch : List Bool) (hsch : sch.count false = 2 ∧ sch.count true = 2) :
    (sch = [false, false, true, true] ∨ sch = [true, true, false, false] ∨
      sch = [false, true, false, true] ∨ sch = [true, false, false, true] ∨
      sch = [false, true, true, false] ∨ sch = [true, false, true, false]) ∧
    (FileCacher.Get (gocRun w key sch (s, .start, .start)).1 key).1 = (some s.next, none) ∧
    (gocRun w key sch (s, .start, .start)).1.heap s.next = file ∧
    ((sch = [false, false, true, true] ∨ sch = [true, true, false, false]) →
      (gocRun w key sch (s, .start, .start)).2 =
        (.done (some s.next, none), .done (some s.next, none))) ∧
    ((sch = [false, true, false, true] ∨ sch = [true, false, false, true]) →
      (gocRun w key sch (s, .start, .start)).2 =
        (.done (some s.next, none), .done (none, some .ErrFileExists))) ∧
    ((sch = [false, true, true, false] ∨ sch = [true, false, true, false]) →
      (gocRun w key sch (s, .start, .start)).2 =
        (.done (none, some .ErrFileExists), .done (some s.next, none))) := by
  have hnl : ¬ s.live key := by
    rintro ⟨f0, hm, _⟩
    rw [hnone] at hm
    exact Option.noConfusion hm
  have hfo : file.closed = false := (NewFile_ok_open hnew).1
  have hG0 : FileCacher.Get s key = ((none, some .ErrFileNotFound), s) := by
    simp [FileCacher.Get, hopen, FileCacher.get, hnone]
  have hN0 : FileCacher.New w s key =
      ((some s.next, none),
        { heap := Function.update s.heap s.next file,
          next := s.next + 1,
          fc := { s.fc with m := mapSet s.fc.m key s.next } }) := by
    rw [New_of_not_live hopen hnl]
    simp [FileCacher.create, hnew]
  have hG1 : FileCacher.Get
        { heap := Function.update s.heap s.next file,
          next := s.next + 1,
          fc := { s.fc with m := mapSet s.fc.m key s.next } } key =
      ((some s.next, none),
        { heap := Function.update s.heap s.next file,
          next := s.next + 1,
          fc := { s.fc with m := mapSet s.fc.m key s.next } }) := by
    simp [FileCacher.Get, hopen, FileCacher.get, mapGet_mapSet_self, atomsGet, hfo]
  have hN1 : FileCacher.New w
        { heap := Function.update s.heap s.next file,
          next := s.next + 1,
          fc := { s.fc with m := mapSet s.fc.m key s.next } } key =
      ((none, some .ErrFileExists),
        { heap := Function.update s.heap s.next file,
          next := s.next + 1,
          fc := { s.fc with m := mapSet s.fc.m key s.next } }) :=
    New_of_live hopen ⟨s.next, mapGet_mapSet_self _ _ _, by simp [hfo]⟩
  have hlen : sch.length = 4 := by
    have h := List.count_true_add_count_false sch
    omega
  rcases sch with _ | ⟨a, _ | ⟨b, _ | ⟨c, _ | ⟨d, _ | ⟨e, rest⟩⟩⟩⟩⟩ <;>
    simp at hlen
  cases a <;> cases b <;> cases c <;> cases d <;> simp at hsch <;>
    simp [gocRun, gocStep, hG0, hN0, hG1, hN1]

/-- C10, amended, at the open, empty registry rooted at `/r` with the file of
`b` holding `hello`, under the schedule `Get`, `Get`, `New`, `New`. -/
theorem GetOrCreate_interleavings_witness :
    (State.init "/r").fc.closed = false ∧
    mapGet (State.init "/r").fc.m "b" = none ∧
    [false, true, false, true].count false = 2 ∧ [false, true, false, true].count true = 2 ∧
    (gocRun (worldWith helloBytes) "b" [false, true, false, true]
        (State.init "/r", .start, .start)).2 =
      (.done (some 0, none), .done (none, some .ErrFileExists)) ∧
    (FileCacher.Get (gocRun (worldWith helloBytes) "b" [false, true, false, true]
        (State.init "/r", .start, .start)).1 "b").1 = (some 0, none) :=
  have h := GetOrCreate_interleavings (worldWith helloBytes) (State.init "/r") "b" _
    (by decide) (by decide) rfl [false, true, false, true] (by decide)
  ⟨by decide, by decide, by decide, by decide, h.2.2.2.2.1 (Or.inl rfl), h.2.1⟩

/-! ## The invariants hold in every state the program reaches -/

theorem GetOrCreate_file_of_no_error (w : World) (s : State) (key : String)
    (h : (FileCacher.GetOrCreate w s key).1.2 = none) :
    ∃ file, (FileCacher.GetOrCreate w s key).1 = (some file, none) := by
  cases hc : s.fc.closed
  · have hG : FileCacher.Get s key = (FileCacher.get s key, s) := by
      simp [FileCacher.Get, hc]
    cases hg : (FileCacher.get s key).2 with
    | none =>
      obtain ⟨file, hf⟩ := get_file_of_no_error s key hg
      exact ⟨file, by simp [FileCacher.GetOrCreate, hG, hg, hf]⟩
    | some err =>
      have hN : FileCacher.GetOrCreate w s key =
          FileCacher.create w s key (w.filepathJoin s.fc.root key) := by
        simp [FileCacher.GetOrCreate, hG, hg, FileCacher.New, hc]
      rw [hN] at h ⊢
      unfold FileCacher.create at h ⊢
      cases hn : NewFile w (w.filepathJoin s.fc.root key) with
      | error e => simp [hn] at h
      | ok file => exact ⟨s.next, by simp⟩
  · rw [GetOrCreate_of_closed w key hc] at h
    simp at h

theorem WF_of_eq {s s2 : State} (hm : s2.fc.m = s.fc.m) (hn : s2.next = s.next)
    (h : s.WF) : s2.WF := by
  unfold State.WF at h ⊢
  rw [hm, hn]
  exact h

theorem WF_init (root : String) : (State.init root).WF := by
  simp [State.WF, State.init, New]

theorem create_WF (w : World) (s : State) (key filename : String) (h : s.WF) :
    (FileCacher.create w s key filename).2.WF := by
  unfold FileCacher.create
  cases hn : NewFile w filename with
  | error e => exact h
  | ok file =>
    have hsub := mapDelete_sublist s.fc.m key
    refine ⟨?_, ?_⟩
    · intro e he
      simp only [mapSet, List.mem_cons] at he
      rcases he with he | he
      · subst he
        exact Nat.lt_succ_self _
      · exact Nat.lt_succ_of_lt (h.1 e (hsub.subset he))
    · simp only [mapSet, List.map_cons, List.nodup_cons]
      refine ⟨?_, h.2.sublist (hsub.map Prod.snd)⟩
      intro hmem
      obtain ⟨e, he, hes⟩ := List.mem_map.mp hmem
      have hlt := h.1 e (hsub.subset he)
      rw [hes] at hlt
      exact Nat.lt_irrefl _ hlt

theorem New_WF (w : World) (s : State) (key : String) (h : s.WF) :
    (FileCacher.New w s key).2.WF := by
  unfold FileCacher.New
  split
  · exact h
  · split
    · exact h
    · exact create_WF w s key _ h

theorem Get_state (s : State) (key : String) : (FileCacher.Get s key).2 = s := by
  unfold FileCacher.Get
  split <;> rfl

theorem GetOrCreate_WF (w : World) (s : State) (key : String) (h : s.WF) :
    (FileCacher.GetOrCreate w s key).2.WF := by
  unfold FileCacher.GetOrCreate
  simp only
  split
  · rw [Get_state]
    exact h
  · rw [Get_state]
    exact New_WF w s key h

theorem Read_state {σ : Type} (w : World) (s : State) (key : String)
    (fn : Bytes → σ → Option Error × σ) (a : σ) :
    (FileCacher.Read w s key fn a).2 = (FileCacher.GetOrCreate w s key).2 := by
  unfold FileCacher.Read
  simp only
  split
  · rfl
  · split <;> rfl

theorem Unmount_WF (s : State) (key : String) (h : s.WF) :
    (FileCacher.Unmount s key).2.WF := by
  cases hc : s.fc.closed
  · by_cases hl : s.live key
    · obtain ⟨f0, hm, hf⟩ := hl
      rw [Unmount_of_live hc hm hf]
      have hsub := mapDelete_sublist s.fc.m key
      exact ⟨fun e he => h.1 e (hsub.subset he), h.2.sublist (hsub.map Prod.snd)⟩
    · rw [Unmount_of_not_live hc hl]
      exact h
  · rw [Unmount_of_closed key hc]
    exact h

theorem Close_WF (s : State) (h : s.WF) : (FileCacher.Close s).2.WF := by
  cases hc : s.fc.closed
  · rw [Close_of_open hc]
    exact WF_of_eq (by rw [(closeLoop_fields _ _).1]) (by rw [(closeLoop_fields _ _).2]) h
  · rw [Close_of_closed hc]
    exact h

theorem step_WF {σ : Type} (w : World) (x : State × σ) (op : Op σ) (h : x.1.WF) :
    (step w x op).1.WF := by
  cases op with
  | New key => exact New_WF w x.1 key h
  | Get key =>
    show (FileCacher.Get x.1 key).2.WF
    rw [Get_state]
    exact h
  | GetOrCreate key => exact GetOrCreate_WF w x.1 key h
  | Read key fn =>
    show (FileCacher.Read w x.1 key fn x.2).2.WF
    rw [Read_state]
    exact GetOrCreate_WF w x.1 key h
  | Unmount key => exact Unmount_WF x.1 key h
  | Close => exact Close_WF x.1 h
  | FileRead file fn => exact h
  | FileClose file => exact h
  | Event file e => exact h

theorem run_WF {σ : Type} (ops : List (World × Op σ)) (x : State × σ) (h : x.1.WF) :
    (run ops x).1.WF := by
  induction ops generalizing x with
  | nil => exact h
  | cons o rest ih => exact ih _ (step_WF o.1 x o.2 h)

theorem create_fc_closed (w : World) (s : State) (key filename : String) :
    (FileCacher.create w s key filename).2.fc.closed = s.fc.closed := by
  unfold FileCacher.create
  split <;> rfl

theorem New_fc_closed (w : World) (s : State) (key : String) :
    (FileCacher.New w s key).2.fc.closed = s.fc.closed := by
  unfold FileCacher.New
  split
  · rfl
  · split
    · rfl
    · exact create_fc_closed w s key _

theorem GetOrCreate_fc_closed (w : World) (s : State) (key : String) :
    (FileCacher.GetOrCreate w s key).2.fc.closed = s.fc.closed := by
  unfold FileCacher.GetOrCreate
  simp only
  split
  · rw [Get_state]
  · rw [Get_state]
    exact New_fc_closed w s key

theorem ClosedInv_init (root : String) : (State.init root).ClosedInv := by
  intro h
  simp [State.init, New] at h

theorem step_ClosedInv {σ : Type} (w : World) (x : State × σ) (op : Op σ)
    (h : x.1.ClosedInv) : (step w x op).1.ClosedInv := by
  cases hc : x.1.fc.closed
  · have hvac : ∀ s2 : State, s2.fc.closed = false → s2.ClosedInv := by
      intro s2 h2 h3
      rw [h2] at h3
      exact Bool.noConfusion h3
    cases op with
    | New key => exact hvac _ (by rw [step, New_fc_closed]; exact hc)
    | Get key => exact hvac _ (by rw [step, Get_state]; exact hc)
    | GetOrCreate key => exact hvac _ (by rw [step, GetOrCreate_fc_closed]; exact hc)
    | Read key fn => exact hvac _ (by rw [step, Read_state, GetOrCreate_fc_closed]; exact hc)
    | Unmount key =>
      refine hvac _ ?_
      by_cases hl : x.1.live key
      · obtain ⟨f0, hm, hf⟩ := hl
        rw [step, Unmount_of_live hc hm hf]
        exact hc
      · rw [step, Unmount_of_not_live hc hl]
        exact hc
    | Close =>
      intro _ e he
      have hfc : (FileCacher.Close x.1).2.fc.m = x.1.fc.m := by rw [Close_open_fc hc]
      have he2 : e ∈ x.1.fc.m := hfc ▸ he
      show ((FileCacher.Close x.1).2.heap e.2).closed = true
      rw [(Close_open_heap hc e.2).1 ⟨e, he2, rfl⟩]
      exact File.Close_fst_closed _
    | FileRead file fn => exact hvac _ hc
    | FileClose file => exact hvac _ hc
    | Event file e => exact hvac _ hc
  · have hs := step_of_closed w x op hc
    intro _ e he
    rw [hs.1] at he
    exact hs.2 e.2 (h hc e he)

theorem run_ClosedInv {σ : Type} (ops : List (World × Op σ)) (x : State × σ)
    (h : x.1.ClosedInv) : (run ops x).1.ClosedInv := by
  induction ops generalizing x with
  | nil => exact h
  | cons o rest ih => exact ih _ (step_ClosedInv o.1 x o.2 h)

end Filecacher
